import Mathlib

/-!
Verification of the supabase-api-generator naming and code-synthesis pipeline.

The generator reads a TypeScript schema file, extracts the table identifiers
declared under a property named `Tables`, derives camelCase / PascalCase /
singular / plural name forms for each table, synthesizes one block of CRUD
method declarations per table, substitutes the joined blocks into a template
file at a placeholder marker, and writes the result to the output path.

Strings are modelled as `List Char`.  File contents live in a map from path
(`String`) to optional content.  The external TypeScript parser is modelled by
taking the already-parsed syntax tree (`TsNode`) as an argument; the parse tree
only records the node classifications the extraction visitor inspects
(property signatures with their name kind, type literals, and a catch-all for
every other node kind).  Character case conversion is modelled on the ASCII
range, which is where `String.prototype.toUpperCase` / `toLowerCase` agree
with a simple arithmetic mapping; snake_case table identifiers stay in that
range.
-/

/-! ## Character and word helpers (`toCamelCase` / `toPascalCase`) -/

/-- ASCII fragment of JS `String.prototype.toUpperCase` applied to one character. -/
def charUpper (c : Char) : Char :=
  if 97 ≤ c.toNat ∧ c.toNat ≤ 122 then Char.ofNat (c.toNat - 32) else c

/-- ASCII fragment of JS `String.prototype.toLowerCase` applied to one character. -/
def charLower (c : Char) : Char :=
  if 65 ≤ c.toNat ∧ c.toNat ≤ 90 then Char.ofNat (c.toNat + 32) else c

/-- JS `str.split(given the single-character separator underscore)`:
`"".split` gives one empty piece, and separators at the ends give empty pieces. -/
def splitOnUnd : List Char → List (List Char)
  | [] => [[]]
  | c :: rest =>
    if c = '_' then [] :: splitOnUnd rest
    else
      match splitOnUnd rest with
      | [] => [[c]]
      | w :: ws => (c :: w) :: ws

/-- JS `word.charAt(0).toUpperCase() + word.slice(1).toLowerCase()`. -/
def capitalizeWord : List Char → List Char
  | [] => []
  | c :: rest => charUpper c :: rest.map charLower

/-- `toCamelCase` from the source: split on underscore, lowercase the first
word entirely, capitalize the rest, concatenate. -/
def toCamelCase (str : List Char) : List Char :=
  match splitOnUnd str with
  | [] => []
  | w :: ws => w.map charLower ++ (ws.map capitalizeWord).flatten

/-- `toPascalCase` from the source: split on underscore, capitalize every
word, concatenate. -/
def toPascalCase (str : List Char) : List Char :=
  ((splitOnUnd str).map capitalizeWord).flatten

/-- The singular/plural derivation inside `generateMethodsForTable`
(source lines 102 through 118): the general suffix rule on the PascalCase form
followed by the raw-name override for `user_type`. -/
def deriveSingularPlural (tableName : List Char) : List Char × List Char :=
  let pascalCaseName := toPascalCase tableName
  let general :=
    if ("s".toList).isSuffixOf pascalCaseName &&
        !(("ss".toList).isSuffixOf pascalCaseName) &&
        !(("us".toList).isSuffixOf pascalCaseName) &&
        !(("is".toList).isSuffixOf pascalCaseName) then
      (pascalCaseName.dropLast, pascalCaseName)
    else
      (pascalCaseName, pascalCaseName ++ "s".toList)
  if tableName = "user_type".toList then ("UserType".toList, "UserTypes".toList)
  else general

/-! ## Method synthesis (`generateMethodsForTable`) -/

/-- The per-table method block, transcribed from the template literal in
`generateMethodsForTable` with its interpolations made explicit.  The
`camelCaseName` binding exists in the source but is never interpolated. -/
def generateMethodsForTable (tableName : List Char) : List Char :=
  let _camelCaseName := toCamelCase tableName
  let pascalCaseName := toPascalCase tableName
  let sp := deriveSingularPlural tableName
  let singularPascalCase := sp.1
  let pluralPascalCase := sp.2
  ("\n  // ").toList ++
    pascalCaseName ++
    ("\n  get").toList ++
    pluralPascalCase ++
    (" = (options?: \x7b select?: string, idField?: string, limit?: number, page?: number, filters?: Record<string, any> \x7d) => this.getAll(\x27").toList ++
    tableName ++
    ("\x27, options);\n  get").toList ++
    singularPascalCase ++
    (" = (id: string, options?: \x7b select?: string, idField?: string \x7d) => this.getById(\x27").toList ++
    tableName ++
    ("\x27, id, options);\n  create").toList ++
    singularPascalCase ++
    (" = (data: Database[\x27public\x27][\x27Tables\x27][\x27").toList ++
    tableName ++
    ("\x27][\x27Insert\x27]) => this.create(\x27").toList ++
    tableName ++
    ("\x27, data);\n  createMany").toList ++
    pluralPascalCase ++
    (" = (data: Database[\x27public\x27][\x27Tables\x27][\x27").toList ++
    tableName ++
    ("\x27][\x27Insert\x27][]) => this.createMany(\x27").toList ++
    tableName ++
    ("\x27, data);\n  update").toList ++
    singularPascalCase ++
    (" = (id: string, data: Database[\x27public\x27][\x27Tables\x27][\x27").toList ++
    tableName ++
    ("\x27][\x27Update\x27], options?: \x7b idField?: string \x7d) => this.update(\x27").toList ++
    tableName ++
    ("\x27, id, data, options);\n  updateMany").toList ++
    pluralPascalCase ++
    (" = (updates: Array<\x7b id: string, data: Database[\x27public\x27][\x27Tables\x27][\x27").toList ++
    tableName ++
    ("\x27][\x27Update\x27] \x7d>, options?: \x7b idField?: string \x7d) => this.updateMany(\x27").toList ++
    tableName ++
    ("\x27, updates, options);\n  delete").toList ++
    singularPascalCase ++
    (" = (id: string, options?: \x7b idField?: string \x7d) => this.delete(\x27").toList ++
    tableName ++
    ("\x27, id, options);").toList

/-! ## Placeholder substitution (JS `String.prototype.replace` with a string
pattern, which replaces only the first occurrence and interprets dollar
patterns in the replacement) -/

/-- ECMA-262 GetSubstitution for a string (captureless) pattern: in the
replacement text, a dollar followed by dollar, ampersand, backquote or quote
expands to a literal dollar, the matched text, the text before the match, or
the text after the match; any other dollar is literal. -/
def getSubstitution (matched before after : List Char) : List Char → List Char
  | [] => []
  | c :: r =>
    if c = '$' then
      match r with
      | [] => [c]
      | d :: r2 =>
        if d = '$' then '$' :: getSubstitution matched before after r2
        else if d = '&' then matched ++ getSubstitution matched before after r2
        else if d = Char.ofNat 96 then before ++ getSubstitution matched before after r2
        else if d = Char.ofNat 39 then after ++ getSubstitution matched before after r2
        else '$' :: d :: getSubstitution matched before after r2
    else c :: getSubstitution matched before after r

/-- Scanning worker for `replaceFirst`: `seen` holds the already-scanned
prefix in reverse. -/
def replaceFirstGo (pat rep : List Char) (seen : List Char) : List Char → List Char
  | [] =>
    if pat.isPrefixOf [] then
      seen.reverse ++ getSubstitution pat seen.reverse [] rep
    else seen.reverse
  | c :: rest =>
    if pat.isPrefixOf (c :: rest) then
      seen.reverse ++ getSubstitution pat seen.reverse (List.drop pat.length (c :: rest)) rep
        ++ List.drop pat.length (c :: rest)
    else replaceFirstGo pat rep (c :: seen) rest

/-- JS `s.replace(pat, rep)` with a plain-string pattern: replace the first
occurrence only. -/
def replaceFirst (s pat rep : List Char) : List Char :=
  replaceFirstGo pat rep [] s

/-- The placeholder marker in the template. -/
def placeholder : List Char := ("// [TABLE_METHODS]").toList

/-! ## Schema extraction (`extractTableNames`) -/

/-- The name of a property signature as the visitor classifies it: a plain
identifier (with its text) or anything else (string literal, computed,
numeric). -/
inductive TsPropName where
  | ident (text : List Char)
  | nonIdent

mutual
/-- A parsed TypeScript node, restricted to the classifications the visitor
inspects: `isPropertySignature`, `isTypeLiteralNode`, and everything else.
Children are the nodes `ts.forEachChild` would visit, in order. -/
inductive TsNode where
  | propertySignature (name : TsPropName) (children : TsForest) : TsNode
  | typeLiteral (children : TsForest) : TsNode
  | otherNode (children : TsForest) : TsNode
/-- An ordered list of sibling nodes. -/
inductive TsForest where
  | nil : TsForest
  | cons (hd : TsNode) (tl : TsForest) : TsForest
end

/-- The children a node passes to `ts.forEachChild`. -/
def childrenOf : TsNode → TsForest
  | .propertySignature _ cs => cs
  | .typeLiteral cs => cs
  | .otherNode cs => cs

mutual
/-- The recursive `visit` function of `extractTableNames`.  `node.parent` and
`node.parent.parent` are modelled by threading down the three facts the
visitor reads from them: `g` says the grandparent is a property signature
whose name is the identifier `Tables`, `l` says the parent is a type literal,
and `t` says the parent is a property signature named `Tables` (which becomes
`g` for the children).  `acc` is the `tableNames` array being pushed to. -/
def visitN (g l t : Bool) (acc : List (List Char)) (n : TsNode) : List (List Char) :=
  match n with
  | .propertySignature (.ident s) cs =>
    visitF t false (decide (s = "Tables".toList)) (if l && g then acc ++ [s] else acc) cs
  | .propertySignature .nonIdent cs => visitF t false false acc cs
  | .typeLiteral cs => visitF t true false acc cs
  | .otherNode cs => visitF t false false acc cs
termination_by structural n
/-- Visit each child in order, threading the accumulator. -/
def visitF (g l t : Bool) (acc : List (List Char)) (f : TsForest) : List (List Char) :=
  match f with
  | .nil => acc
  | .cons h tl => visitF g l t (visitN g l t acc h) tl
termination_by structural f
end

/-- `extractTableNames`: visit the parsed source file.  The source file node
has no parent, so all three context facts start out false.  (Reading and
parsing the schema file is the external parser collaborator; the model takes
the resulting tree.) -/
def extractTableNames (sourceFile : TsNode) : List (List Char) :=
  visitN false false false [] sourceFile

mutual
/-- Specification-style pre-order collection of the matched identifiers:
the match at a node precedes the matches inside its children, and siblings
contribute left to right. -/
def preN (g l t : Bool) (n : TsNode) : List (List Char) :=
  match n with
  | .propertySignature (.ident s) cs =>
    (if l && g then [s] else []) ++ preF t false (decide (s = "Tables".toList)) cs
  | .propertySignature .nonIdent cs => preF t false false cs
  | .typeLiteral cs => preF t true false cs
  | .otherNode cs => preF t false false cs
termination_by structural n
/-- Pre-order collection over a forest of siblings. -/
def preF (g l t : Bool) (f : TsForest) : List (List Char) :=
  match f with
  | .nil => []
  | .cons h tl => preN g l t h ++ preF g l t tl
termination_by structural f
end

/-- The pre-order reading of extraction, used to state the order claim. -/
def preorderTableNames (root : TsNode) : List (List Char) :=
  preN false false false root

/-! ## Filesystem model and the generation runs -/

/-- A filesystem: a map from resolved path to file content. -/
def FS : Type := String → Option (List Char)

/-- The empty filesystem. -/
def FS.empty : FS := fun _ => none

/-- `fs.writeFileSync`. -/
def FS.write (fs : FS) (p : String) (c : List Char) : FS :=
  fun q => if q = p then some c else fs q

/-- `fs.unlinkSync` when it succeeds. -/
def FS.erase (fs : FS) (p : String) : FS :=
  fun q => if q = p then none else fs q

/-- Model of Node `path.dirname` for already-resolved paths with no trailing
slash: the text before the final slash, with the root and the slashless case
handled as Node does. -/
def dirnameOf (p : String) : String :=
  let r := p.toList.reverse
  let rest := r.dropWhile (fun c => !(c = '/'))
  if rest.isEmpty then "."
  else if (rest.drop 1).isEmpty then "/"
  else String.mk (rest.drop 1).reverse

/-- `TEMPLATE_FILE_PATH`: the fixed file name `SupabaseApi.ts` placed in the
directory of the output path (source lines 24 through 26). -/
def templatePathOf (outPath : String) : String :=
  dirnameOf outPath ++ "/SupabaseApi.ts"

/-- Environment facts outside the program: whether the `unlinkSync` call on
the pre-existing output file succeeds or throws. -/
structure Env where
  unlinkOk : Bool

/-- The canonical template text written by `generateTemplateFile` when no
template exists: the verbatim template literal from the source, with the
escaped backquotes and dollar braces of the outer literal resolved. -/
def canonicalTemplate : List Char :=
  (("import \x7b createClient \x7d from \x27./supabase\x27;\nimport \x7b Database \x7d from \x27../types/supabase\x27;\nimport \x7b PostgrestError \x7d from \x27@supabase/supabase-js\x27;\n\n/**\n * SupabaseApiGenerator - Generates CRUD operations for database tables\n * \n * This class automatically creates CRUD operations for tables defined in the \n * Database type interface. It provides methods to get, create, update, and delete\n * records for each table.\n */\nexport class SupabaseApiGenerator \x7b\n  private supabase = createClient();\n  \n  /**\n   * Apply filters to a query\n   * @param query - The query to apply filters to\n   * @param filters - Object where keys are column names and values are values to filter by\n   * @returns The query with filters applied\n   */\n  private applyFilters(query: any, filters?: Record<string, any>): any \x7b\n    if (!filters) return query;\n    \n    let filteredQuery = query;\n    \n    // Apply each filter\n    Object.entries(filters).forEach(([column, value]) => \x7b\n      if (value === null) \x7b\n        filteredQuery = filteredQuery.is(column, null);\n      \x7d else if (Array.isArray(value)) \x7b\n        filteredQuery = filteredQuery.in(column, value);\n      \x7d else if (typeof value === \x27object\x27) \x7b\n        // Handle special operators\n        if (\x27gt\x27 in value) filteredQuery = filteredQuery.gt(column, value.gt);\n        if (\x27gte\x27 in value) filteredQuery = filteredQuery.gte(column, value.gte);\n        if (\x27lt\x27 in value) filteredQuery = filteredQuery.lt(column, value.lt);\n")
    ++ ("        if (\x27lte\x27 in value) filteredQuery = filteredQuery.lte(column, value.lte);\n        if (\x27neq\x27 in value) filteredQuery = filteredQuery.neq(column, value.neq);\n        if (\x27like\x27 in value) filteredQuery = filteredQuery.like(column, value.like);\n        if (\x27ilike\x27 in value) filteredQuery = filteredQuery.ilike(column, value.ilike);\n        if (\x27is\x27 in value) filteredQuery = filteredQuery.is(column, value.is);\n      \x7d else \x7b\n        filteredQuery = filteredQuery.eq(column, value);\n      \x7d\n    \x7d);\n    \n    return filteredQuery;\n  \x7d\n  \n  /**\n   * Get all records from a specific table\n   * @param tableName - The name of the table\n   * @param options - Additional options for the query\n   * @returns Promise with all records\n   */\n  async getAll<\n    T extends keyof Database[\x27public\x27][\x27Tables\x27]\n  >(tableName: T, options?: \x7b \n    select?: string, \n    idField?: string,\n    limit?: number,\n    page?: number,\n    filters?: Record<string, any>\n  \x7d): Promise<Database[\x27public\x27][\x27Tables\x27][T][\x27Row\x27][]> \x7b\n    try \x7b\n      let query = this.supabase.from(tableName).select(options?.select || \x27*\x27);\n      \n      // Apply filters if provided\n      if (options?.filters) \x7b\n        query = this.applyFilters(query, options.filters);\n      \x7d\n      \n      // Add pagination if needed\n      if (options?.limit !== undefined) \x7b\n        const page = options.page || 0;\n")
    ++ ("        const offset = page * options.limit;\n        query = query.range(offset, offset + options.limit - 1);\n      \x7d\n      \n      const \x7b data, error \x7d = await query;\n      \n      if (error) \x7b\n        throw error;\n      \x7d\n      \n      // Explicitly cast through unknown to ensure type safety\n      return (data || []) as unknown as Database[\x27public\x27][\x27Tables\x27][T][\x27Row\x27][];\n    \x7d catch (error) \x7b\n      console.error(`Error in getAll for $\x7bString(tableName)\x7d:`, error);\n      throw error;\n    \x7d\n  \x7d\n  \n  /**\n   * Get a record by ID from a specific table\n   * @param tableName - The name of the table\n   * @param id - The ID of the record\n   * @param options - Additional options for the query\n   * @returns Promise with the record\n   */\n  async getById<\n    T extends keyof Database[\x27public\x27][\x27Tables\x27]\n  >(tableName: T, id: string | number, options?: \x7b select?: string, idField?: string \x7d): Promise<Database[\x27public\x27][\x27Tables\x27][T][\x27Row\x27] | null> \x7b\n    try \x7b\n      const idField = options?.idField || \x27id\x27;\n      \n      const \x7b data, error \x7d = await this.supabase\n        .from(tableName)\n        .select(options?.select || \x27*\x27)\n        .eq(idField, id)\n        .single();\n      \n      if (error) \x7b\n        if (error.code === \x27PGRST116\x27) \x7b\n          return null; // Record not found\n        \x7d\n        throw error;\n      \x7d\n      \n")
    ++ ("      // Explicitly cast through unknown to ensure type safety\n      return data as unknown as Database[\x27public\x27][\x27Tables\x27][T][\x27Row\x27];\n    \x7d catch (error) \x7b\n      console.error(`Error in getById for $\x7bString(tableName)\x7d:`, error);\n      throw error;\n    \x7d\n  \x7d\n  \n  /**\n   * Create a new record in a specific table\n   * @param tableName - The name of the table\n   * @param data - The data to insert\n   * @returns Promise with the created record\n   */\n  async create<\n    T extends keyof Database[\x27public\x27][\x27Tables\x27]\n  >(tableName: T, data: Database[\x27public\x27][\x27Tables\x27][T][\x27Insert\x27]): Promise<Database[\x27public\x27][\x27Tables\x27][T][\x27Row\x27]> \x7b\n    try \x7b\n      const \x7b data: createdData, error \x7d = await this.supabase\n        .from(tableName)\n        .insert(data)\n        .select(\x27*\x27)\n        .single();\n      \n      if (error) \x7b\n        throw error;\n      \x7d\n      \n      // Explicitly cast through unknown to ensure type safety\n      return createdData as unknown as Database[\x27public\x27][\x27Tables\x27][T][\x27Row\x27];\n    \x7d catch (error) \x7b\n      console.error(`Error in create for $\x7bString(tableName)\x7d:`, error);\n      throw error;\n    \x7d\n  \x7d\n  \n  /**\n   * Create multiple records in a specific table\n   * @param tableName - The name of the table\n   * @param data - Array of data to insert\n   * @returns Promise with the created records\n   */\n")
    ++ ("  async createMany<\n    T extends keyof Database[\x27public\x27][\x27Tables\x27]\n  >(tableName: T, data: Database[\x27public\x27][\x27Tables\x27][T][\x27Insert\x27][]): Promise<Database[\x27public\x27][\x27Tables\x27][T][\x27Row\x27][]> \x7b\n    try \x7b\n      const \x7b data: createdData, error \x7d = await this.supabase\n        .from(tableName)\n        .insert(data)\n        .select(\x27*\x27);\n      \n      if (error) \x7b\n        throw error;\n      \x7d\n      \n      // Explicitly cast through unknown to ensure type safety\n      return (createdData || []) as unknown as Database[\x27public\x27][\x27Tables\x27][T][\x27Row\x27][];\n    \x7d catch (error) \x7b\n      console.error(`Error in createMany for $\x7bString(tableName)\x7d:`, error);\n      throw error;\n    \x7d\n  \x7d\n  \n  /**\n   * Update a record in a specific table\n   * @param tableName - The name of the table\n   * @param id - The ID of the record\n   * @param data - The data to update\n   * @param options - Additional options for the query\n   * @returns Promise with the updated record\n   */\n  async update<\n    T extends keyof Database[\x27public\x27][\x27Tables\x27]\n  >(tableName: T, id: string | number, data: Database[\x27public\x27][\x27Tables\x27][T][\x27Update\x27], options?: \x7b idField?: string \x7d): Promise<Database[\x27public\x27][\x27Tables\x27][T][\x27Row\x27]> \x7b\n    try \x7b\n      const idField = options?.idField || \x27id\x27;\n      \n      const \x7b data: updatedData, error \x7d = await this.supabase\n")
    ++ ("        .from(tableName)\n        .update(data)\n        .eq(idField, id)\n        .select(\x27*\x27)\n        .single();\n      \n      if (error) \x7b\n        throw error;\n      \x7d\n      \n      // Explicitly cast through unknown to ensure type safety\n      return updatedData as unknown as Database[\x27public\x27][\x27Tables\x27][T][\x27Row\x27];\n    \x7d catch (error) \x7b\n      console.error(`Error in update for $\x7bString(tableName)\x7d:`, error);\n      throw error;\n    \x7d\n  \x7d\n\n  /**\n   * Update multiple records in a specific table\n   * @param tableName - The name of the table\n   * @param updates - Array of objects with id and data to update\n   * @param options - Additional options for the query\n   * @returns Promise with the updated records\n   */\n  async updateMany<\n    T extends keyof Database[\x27public\x27][\x27Tables\x27]\n  >(\n    tableName: T, \n    updates: Array<\x7b \n      id: string | number, \n      data: Database[\x27public\x27][\x27Tables\x27][T][\x27Update\x27] \n    \x7d>,\n    options?: \x7b idField?: string \x7d\n  ): Promise<Database[\x27public\x27][\x27Tables\x27][T][\x27Row\x27][]> \x7b\n    try \x7b\n      const idField = options?.idField || \x27id\x27;\n      \n      // We need to perform the updates one by one since Supabase doesn\x27t support\n      // updating multiple records with different values in a single query\n      const updatedRecords: Database[\x27public\x27][\x27Tables\x27][T][\x27Row\x27][] = [];\n      \n")
    ++ ("      for (const update of updates) \x7b\n        const \x7b data: updatedData, error \x7d = await this.supabase\n          .from(tableName)\n          .update(update.data)\n          .eq(idField, update.id)\n          .select(\x27*\x27)\n          .single();\n        \n        if (error) \x7b\n          throw error;\n        \x7d\n        \n        // Explicitly cast through unknown to ensure type safety\n        updatedRecords.push(updatedData as unknown as Database[\x27public\x27][\x27Tables\x27][T][\x27Row\x27]);\n      \x7d\n      \n      return updatedRecords;\n    \x7d catch (error) \x7b\n      console.error(`Error in updateMany for $\x7bString(tableName)\x7d:`, error);\n      throw error;\n    \x7d\n  \x7d\n  \n  /**\n   * Delete a record from a specific table\n   * @param tableName - The name of the table\n   * @param id - The ID of the record\n   * @param options - Additional options for the query\n   * @returns Promise with the deleted record\n   */\n  async delete<\n    T extends keyof Database[\x27public\x27][\x27Tables\x27]\n  >(tableName: T, id: string | number, options?: \x7b idField?: string \x7d): Promise<void> \x7b\n    try \x7b\n      const idField = options?.idField || \x27id\x27;\n      \n      const \x7b error \x7d = await this.supabase\n        .from(tableName)\n        .delete()\n        .eq(idField, id);\n      \n      if (error) \x7b\n        throw error;\n      \x7d\n    \x7d catch (error) \x7b\n      console.error(`Error in delete for $\x7bString(tableName)\x7d:`, error);\n")
    ++ ("      throw error;\n    \x7d\n  \x7d\n  \n  // Generated CRUD methods for specific tables\n  // [TABLE_METHODS]\n\x7d\n\n// Create and export a singleton instance\nexport const API = new SupabaseApiGenerator();\n\n// Export default as the singleton instance\nexport default API;")
  ).toList

/-- `generateTemplateFile`: write the canonical template only when no file
exists at the template path. -/
def generateTemplateFile (outPath : String) (fs : FS) : FS :=
  match fs (templatePathOf outPath) with
  | some _ => fs
  | none => FS.write fs (templatePathOf outPath) canonicalTemplate

/-- `generateApiClass`: ensure the template, extract the table names, join the
generated blocks with a newline, substitute at the placeholder, delete any
pre-existing output file (a failed delete is caught and logged), and write the
output.  Directory creation only affects directory entries, which the
path-to-content map does not track.  The deferred `setTimeout` write is
modelled as the write happening. -/
def generateApiClass (env : Env) (tree : TsNode) (outPath : String) (fs : FS) : FS :=
  let fs1 := generateTemplateFile outPath fs
  let tableNames := extractTableNames tree
  let tableMethods := List.intercalate ("\n".toList) (tableNames.map generateMethodsForTable)
  let templateContent := (fs1 (templatePathOf outPath)).getD []
  let outputContent := replaceFirst templateContent placeholder tableMethods
  let fs2 :=
    match fs1 outPath with
    | some _ => if env.unlinkOk then FS.erase fs1 outPath else fs1
    | none => fs1
  FS.write fs2 outPath outputContent

/-! ## The updateMany primitive of the generated template

The template text (itself part of this program, written verbatim by
`generateTemplateFile`) contains the generic `updateMany` operation: a loop
that awaits one single-record update per request and throws on the first
error.  The external data-access client is modelled by `step`; the first
component of the result is the list of requests actually sent, in order. -/
def updateMany {α β ε : Type} (step : α → Except ε β) :
    List α → List α × Except ε (List β)
  | [] => ([], Except.ok [])
  | u :: rest =>
    match step u with
    | Except.error e => ([u], Except.error e)
    | Except.ok r =>
      match updateMany step rest with
      | (tr, Except.error e) => (u :: tr, Except.error e)
      | (tr, Except.ok rs) => (u :: tr, Except.ok (r :: rs))

/-! ## Helper lemmas about characters and splitting -/

theorem charToNat_ofNat_valid (n : Nat) (h : n.isValidChar) : (Char.ofNat n).toNat = n := by
  unfold Char.ofNat
  rw [dif_pos h]
  simp [Char.ofNatAux, Char.toNat, UInt32.toNat, BitVec.toNat_ofNatLt]

theorem charUpper_eq_und {c : Char} (h : charUpper c = '_') : c = '_' := by
  unfold charUpper at h
  split at h
  · rename_i hcond
    exfalso
    have hv : (c.toNat - 32).isValidChar := Or.inl (by omega)
    have h2 := congrArg Char.toNat h
    rw [charToNat_ofNat_valid _ hv] at h2
    rw [show ('_').toNat = 95 from rfl] at h2
    omega
  · exact h

theorem charLower_eq_und {c : Char} (h : charLower c = '_') : c = '_' := by
  unfold charLower at h
  split at h
  · rename_i hcond
    exfalso
    have hv : (c.toNat + 32).isValidChar := Or.inl (by omega)
    have h2 := congrArg Char.toNat h
    rw [charToNat_ofNat_valid _ hv] at h2
    rw [show ('_').toNat = 95 from rfl] at h2
    omega
  · exact h

theorem splitOnUnd_no_und : ∀ (r : List Char), ∀ w ∈ splitOnUnd r, '_' ∉ w := by
  intro r
  induction r with
  | nil =>
    intro w hw
    simp only [splitOnUnd, List.mem_singleton] at hw
    subst hw
    simp
  | cons c rest ih =>
    intro w hw
    simp only [splitOnUnd] at hw
    by_cases hc : c = '_'
    · rw [if_pos hc] at hw
      rcases List.mem_cons.mp hw with h | h
      · subst h; simp
      · exact ih w h
    · rw [if_neg hc] at hw
      cases hsp : splitOnUnd rest with
      | nil =>
        rw [hsp] at hw
        simp only [List.mem_singleton] at hw
        subst hw
        intro hmem
        rcases List.mem_singleton.mp hmem with h1
        exact hc h1.symm
      | cons w0 ws =>
        rw [hsp] at hw
        rcases List.mem_cons.mp hw with h | h
        · subst h
          intro hmem
          rcases List.mem_cons.mp hmem with h1 | h1
          · exact hc h1.symm
          · exact ih w0 (by rw [hsp]; exact List.mem_cons_self w0 ws) h1
        · exact ih w (by rw [hsp]; exact List.mem_cons_of_mem w0 h)

theorem und_not_mem_capitalizeWord {w : List Char} (h : '_' ∉ w) :
    '_' ∉ capitalizeWord w := by
  cases w with
  | nil => simp [capitalizeWord]
  | cons c rest =>
    simp only [capitalizeWord]
    intro hmem
    rcases List.mem_cons.mp hmem with h1 | h1
    · exact h (charUpper_eq_und h1.symm ▸ List.mem_cons_self c rest)
    · rcases List.mem_map.mp h1 with ⟨a, ha, hla⟩
      exact h (charLower_eq_und hla ▸ List.mem_cons_of_mem c ha)

/-! ## C1, C2, C7: the naming claims -/

/-- C1: for every raw table identifier not covered by the override table, the
derived singular and plural forms follow the general rule: if the PascalCase
form ends in an s that is not part of a double s, us or is suffix, the
singular drops the trailing s and the plural is the PascalCase form itself;
otherwise the singular is the PascalCase form and the plural appends an s. -/
theorem c1_general_pluralization_rule (r : List Char) (h : r ≠ "user_type".toList) :
    ((("s".toList).isSuffixOf (toPascalCase r) &&
        !(("ss".toList).isSuffixOf (toPascalCase r)) &&
        !(("us".toList).isSuffixOf (toPascalCase r)) &&
        !(("is".toList).isSuffixOf (toPascalCase r))) = true →
      deriveSingularPlural r = ((toPascalCase r).dropLast, toPascalCase r)) ∧
    ((("s".toList).isSuffixOf (toPascalCase r) &&
        !(("ss".toList).isSuffixOf (toPascalCase r)) &&
        !(("us".toList).isSuffixOf (toPascalCase r)) &&
        !(("is".toList).isSuffixOf (toPascalCase r))) = false →
      deriveSingularPlural r = (toPascalCase r, toPascalCase r ++ "s".toList)) := by
  unfold deriveSingularPlural
  rw [if_neg h]
  constructor
  · intro hc
    rw [if_pos hc]
  · intro hc
    rw [if_neg (by rw [hc]; exact Bool.false_ne_true)]

/-- C1 witness: the raw identifier posts is not the override key, its
PascalCase form Posts matches the general plural condition, and the derived
forms are Post and Posts. -/
theorem c1_general_pluralization_rule_witness :
    ("posts".toList ≠ "user_type".toList) ∧
    deriveSingularPlural ("posts".toList) = ("Post".toList, "Posts".toList) := by
  refine ⟨by decide, ?_⟩
  have h := (c1_general_pluralization_rule ("posts".toList) (by decide)).1 (by decide)
  exact h.trans (by decide)

/-- C2: the override table contains exactly the raw identifier user_type, and
for it the override forms UserType and UserTypes are what the derivation
returns, regardless of the general rule output. -/
theorem c2_user_type_override (r : List Char) (h : r = "user_type".toList) :
    deriveSingularPlural r = ("UserType".toList, "UserTypes".toList) := by
  subst h
  decide

/-- C2 witness: the override applied at its key. -/
theorem c2_user_type_override_witness :
    deriveSingularPlural ("user_type".toList) = ("UserType".toList, "UserTypes".toList) :=
  c2_user_type_override ("user_type".toList) rfl

/-- C7: for every raw table identifier, the PascalCase form contains no
underscore and is the concatenation of the underscore-delimited segments of
the raw identifier, each with its first character uppercased and the rest
lowercased. -/
theorem c7_pascal_no_underscore (r : List Char) :
    '_' ∉ toPascalCase r ∧
    toPascalCase r = ((splitOnUnd r).map capitalizeWord).flatten := by
  refine ⟨?_, rfl⟩
  intro hmem
  rw [toPascalCase] at hmem
  rcases List.mem_flatten.mp hmem with ⟨l, hl, hmem2⟩
  rcases List.mem_map.mp hl with ⟨w, hw, hcap⟩
  exact und_not_mem_capitalizeWord (splitOnUnd_no_und r w hw) (hcap ▸ hmem2)

/-! ## C8: the updateMany design contract -/

/-- C8: the generated updateMany executes the requests strictly in order; when
every request in the first segment succeeds and the next request fails, the
requests actually sent are exactly the first segment followed by the failing
request (the remaining segment is never attempted), and the result surfaces
that error rather than any partial success. -/
theorem c8_updateMany_sequential_abort {α β ε : Type} (step : α → Except ε β)
    (l1 l2 : List α) (u : α) (e : ε)
    (h1 : ∀ v ∈ l1, ∃ r, step v = Except.ok r)
    (h2 : step u = Except.error e) :
    updateMany step (l1 ++ u :: l2) = (l1 ++ [u], Except.error e) := by
  induction l1 with
  | nil => simp [updateMany, h2]
  | cons v l1' ih =>
    obtain ⟨r, hr⟩ := h1 v (List.mem_cons_self v l1')
    have ih' := ih (fun w hw => h1 w (List.mem_cons_of_mem v hw))
    simp [updateMany, hr, ih']

/-- A concrete external client for the C8 witness: the update of record two
fails, every other update succeeds. -/
def stepWitness : Nat → Except String Nat :=
  fun n => if n = 2 then Except.error "fail" else Except.ok n

/-- C8 witness: three requests where the second fails: the first is sent, the
third is never attempted, and the error of the second is the result. -/
theorem c8_updateMany_sequential_abort_witness :
    (∀ v ∈ [1], ∃ r, stepWitness v = Except.ok r) ∧
    stepWitness 2 = Except.error "fail" ∧
    updateMany stepWitness [1, 2, 3] = ([1, 2], Except.error "fail") := by
  refine ⟨fun v hv => ⟨v, by rw [List.mem_singleton.mp hv]; rfl⟩, rfl, ?_⟩
  exact c8_updateMany_sequential_abort stepWitness [1] [3] 2 "fail"
    (fun v hv => ⟨v, by rw [List.mem_singleton.mp hv]; rfl⟩) rfl

/-! ## Helper lemmas about replaceFirst -/

theorem getSubstitution_no_dollar (m b a : List Char) :
    ∀ (rep : List Char), '$' ∉ rep → getSubstitution m b a rep = rep := by
  intro rep
  induction rep with
  | nil => intro _; rfl
  | cons c r ih =>
    intro h
    have hc : c ≠ '$' := fun hh => h (hh ▸ List.mem_cons_self c r)
    rw [getSubstitution.eq_def]
    simp only [if_neg hc]
    rw [ih fun hh => h (List.mem_cons_of_mem c hh)]

theorem replaceFirstGo_decomp (pat rep B : List Char) (hpat : pat ≠ []) :
    ∀ (A seen : List Char),
      (∀ i, i < A.length → pat.isPrefixOf ((A ++ pat ++ B).drop i) = false) →
      replaceFirstGo pat rep seen (A ++ pat ++ B) =
        seen.reverse ++ A ++ getSubstitution pat (seen.reverse ++ A) B rep ++ B := by
  intro A
  induction A with
  | nil =>
    intro seen _
    obtain ⟨p, pat', hp⟩ := List.exists_cons_of_ne_nil hpat
    subst hp
    have hpre : (p :: pat').isPrefixOf (p :: (pat' ++ B)) = true :=
      List.isPrefixOf_iff_prefix.mpr (List.prefix_append (p :: pat') B)
    have hdrop : List.drop (p :: pat').length (p :: (pat' ++ B)) = B :=
      List.drop_left (p :: pat') B
    simp only [List.nil_append, List.cons_append, replaceFirstGo, List.append_eq]
    rw [if_pos hpre, hdrop]
    simp
  | cons a A' ih =>
    intro seen hfirst
    have h0 : pat.isPrefixOf (a :: (A' ++ pat ++ B)) = false := by
      have := hfirst 0 (by simp)
      simpa using this
    simp only [List.cons_append, List.append_assoc] at h0 ⊢
    simp only [replaceFirstGo]
    rw [if_neg (by rw [h0]; exact Bool.false_ne_true)]
    have ih' := ih (a :: seen) (fun i hi => by
      have := hfirst (i + 1) (by simp only [List.length_cons]; omega)
      simpa using this)
    simp only [List.append_assoc] at ih'
    rw [ih']
    simp

theorem replaceFirst_decomp (pat rep A B : List Char) (hpat : pat ≠ [])
    (hfirst : ∀ i, i < A.length → pat.isPrefixOf ((A ++ pat ++ B).drop i) = false) :
    replaceFirst (A ++ pat ++ B) pat rep = A ++ getSubstitution pat A B rep ++ B := by
  unfold replaceFirst
  rw [replaceFirstGo_decomp pat rep B hpat A [] hfirst]
  simp

/-! ## C6: the placeholder is replaced at its first occurrence only -/

/-- C6: when the template decomposes around a first placeholder occurrence and
contains a second occurrence further right, substitution (with a replacement
free of dollar patterns) rewrites only the first occurrence; the second is
left intact in the output. -/
theorem c6_replace_first_occurrence_only (A B1 B2 rep : List Char)
    (hfirst : ∀ i, i < A.length →
      placeholder.isPrefixOf ((A ++ placeholder ++ (B1 ++ placeholder ++ B2)).drop i) = false)
    (hnd : '$' ∉ rep) :
    replaceFirst (A ++ placeholder ++ (B1 ++ placeholder ++ B2)) placeholder rep =
      A ++ rep ++ (B1 ++ placeholder ++ B2) := by
  rw [replaceFirst_decomp placeholder rep A (B1 ++ placeholder ++ B2) (by decide) hfirst]
  rw [getSubstitution_no_dollar _ _ _ rep hnd]

/-- C6 witness: a template with two placeholder occurrences keeps the second
occurrence verbatim after substitution. -/
theorem c6_replace_first_occurrence_only_witness :
    (∀ i, i < ("x".toList).length →
      placeholder.isPrefixOf ((("x".toList ++ placeholder ++
        ("y".toList ++ placeholder ++ "z".toList))).drop i) = false) ∧
    ('$' ∉ "M".toList) ∧
    replaceFirst ("x".toList ++ placeholder ++ ("y".toList ++ placeholder ++ "z".toList))
        placeholder ("M".toList) =
      "x".toList ++ "M".toList ++ ("y".toList ++ placeholder ++ "z".toList) := by
  refine ⟨by decide, by decide, ?_⟩
  exact c6_replace_first_occurrence_only ("x".toList) ("y".toList) ("z".toList) ("M".toList)
    (by decide) (by decide)

/-! ## The visitor accumulates exactly the pre-order matches -/

mutual
theorem visitN_eq_preN (n : TsNode) : ∀ (g l t : Bool) (acc : List (List Char)),
    visitN g l t acc n = acc ++ preN g l t n := by
  cases n with
  | propertySignature nm cs =>
    cases nm with
    | ident s =>
      intro g l t acc
      simp only [visitN, preN]
      rw [visitF_eq_preF cs t false (decide (s = "Tables".toList))
        (if l && g then acc ++ [s] else acc)]
      by_cases h : (l && g) = true <;> simp [h]
    | nonIdent =>
      intro g l t acc
      simp only [visitN, preN]
      rw [visitF_eq_preF cs t false false acc]
  | typeLiteral cs =>
    intro g l t acc
    simp only [visitN, preN]
    rw [visitF_eq_preF cs t true false acc]
  | otherNode cs =>
    intro g l t acc
    simp only [visitN, preN]
    rw [visitF_eq_preF cs t false false acc]
termination_by structural n
theorem visitF_eq_preF (f : TsForest) : ∀ (g l t : Bool) (acc : List (List Char)),
    visitF g l t acc f = acc ++ preF g l t f := by
  cases f with
  | nil => intro g l t acc; simp [visitF, preF]
  | cons h tl =>
    intro g l t acc
    simp only [visitF, preF]
    rw [visitF_eq_preF tl g l t (visitN g l t acc h), visitN_eq_preN h g l t acc]
    simp
termination_by structural f
end

theorem extract_eq_preorder (tree : TsNode) :
    extractTableNames tree = preorderTableNames tree := by
  unfold extractTableNames preorderTableNames
  rw [visitN_eq_preN tree false false false []]
  simp

/-! ## C5: extraction order is preserved end to end -/

/-- C5: extraction returns exactly the pre-order matches of the parse tree
(parent before children, siblings left to right, which is declaration order in
the source text), and substitution places the method blocks, joined in that
same list order with no sorting, verbatim between the template text around the
first placeholder occurrence. -/
theorem c5_extraction_order_preserved (tree : TsNode) (A B : List Char)
    (hfirst : ∀ i, i < A.length →
      placeholder.isPrefixOf ((A ++ placeholder ++ B).drop i) = false)
    (hnd : '$' ∉ List.intercalate ("\n".toList)
      ((extractTableNames tree).map generateMethodsForTable)) :
    extractTableNames tree = preorderTableNames tree ∧
    replaceFirst (A ++ placeholder ++ B) placeholder
        (List.intercalate ("\n".toList) ((extractTableNames tree).map generateMethodsForTable)) =
      A ++ List.intercalate ("\n".toList)
        ((extractTableNames tree).map generateMethodsForTable) ++ B := by
  refine ⟨extract_eq_preorder tree, ?_⟩
  rw [replaceFirst_decomp placeholder _ A B (by decide) hfirst]
  rw [getSubstitution_no_dollar _ _ _ _ hnd]

/-- A parse tree declaring the tables post and user_type, in that order, as a
nested Tables map without the outer wrapper mattering. -/
def treeTwoTables : TsNode :=
  TsNode.otherNode (TsForest.cons
    (TsNode.propertySignature (TsPropName.ident ("Tables".toList))
      (TsForest.cons
        (TsNode.typeLiteral
          (TsForest.cons
            (TsNode.propertySignature (TsPropName.ident ("post".toList)) TsForest.nil)
            (TsForest.cons
              (TsNode.propertySignature (TsPropName.ident ("user_type".toList)) TsForest.nil)
              TsForest.nil)))
        TsForest.nil))
    TsForest.nil)

set_option maxRecDepth 100000 in
/-- C5 witness: a two-table schema keeps declaration order post, user_type in
the extraction result and in the output document. -/
theorem c5_extraction_order_preserved_witness :
    extractTableNames treeTwoTables = ["post".toList, "user_type".toList] ∧
    extractTableNames treeTwoTables = preorderTableNames treeTwoTables ∧
    replaceFirst ("pre".toList ++ placeholder ++ "post".toList) placeholder
        (List.intercalate ("\n".toList)
          ((extractTableNames treeTwoTables).map generateMethodsForTable)) =
      "pre".toList ++ List.intercalate ("\n".toList)
        ((extractTableNames treeTwoTables).map generateMethodsForTable) ++ "post".toList := by
  refine ⟨by decide, ?_, ?_⟩
  · exact (c5_extraction_order_preserved treeTwoTables ("pre".toList) ("post".toList)
      (by decide) (by decide)).1
  · exact (c5_extraction_order_preserved treeTwoTables ("pre".toList) ("post".toList)
      (by decide) (by decide)).2

/-! ## Helper lemmas about the generation run -/

theorem generateTemplateFile_some (outPath : String) (fs : FS) :
    ∃ c, (generateTemplateFile outPath fs) (templatePathOf outPath) = some c := by
  cases h : fs (templatePathOf outPath) with
  | some c => exact ⟨c, by simp [generateTemplateFile, h]⟩
  | none => exact ⟨canonicalTemplate, by simp [generateTemplateFile, h, FS.write]⟩

theorem generateApiClass_out (env : Env) (tree : TsNode) (outPath : String) (fs : FS) :
    (generateApiClass env tree outPath fs) outPath =
      some (replaceFirst
        (((generateTemplateFile outPath fs) (templatePathOf outPath)).getD [])
        placeholder
        (List.intercalate ("\n".toList)
          ((extractTableNames tree).map generateMethodsForTable))) := by
  unfold generateApiClass
  simp [FS.write]

/-! ## C9: a failed delete of the old output is not fatal -/

/-- C9: when deleting the pre-existing output file fails, the failure is
swallowed and the subsequent write still happens: the run still ends with the
output file holding the substituted content, exactly as in a run whose delete
succeeds. -/
theorem c9_unlink_failure_nonfatal (tree : TsNode) (outPath : String) (fs : FS) :
    ((generateApiClass ⟨false⟩ tree outPath fs) outPath).isSome = true ∧
    (generateApiClass ⟨false⟩ tree outPath fs) outPath =
      (generateApiClass ⟨true⟩ tree outPath fs) outPath := by
  constructor
  · rw [generateApiClass_out]; rfl
  · rw [generateApiClass_out, generateApiClass_out]

/-! ## C3: preservation of an existing template file -/

/-- C3 as amended: when the template path is distinct from the output path
(that is, the chosen output file is not itself named SupabaseApi.ts in its own
directory) and a template file already exists, the whole run leaves the
template file content unchanged. -/
theorem c3_template_preserved_when_paths_differ (env : Env) (tree : TsNode)
    (outPath : String) (fs : FS) (c : List Char)
    (hne : templatePathOf outPath ≠ outPath)
    (hex : fs (templatePathOf outPath) = some c) :
    (generateApiClass env tree outPath fs) (templatePathOf outPath) = some c := by
  have h1 : generateTemplateFile outPath fs = fs := by
    unfold generateTemplateFile
    rw [hex]
  unfold generateApiClass
  rw [h1]
  simp only [FS.write]
  rw [if_neg hne]
  cases h2 : fs outPath with
  | none => simpa [h2] using hex
  | some d =>
    simp only [h2]
    by_cases hu : env.unlinkOk = true
    · simp [hu, FS.erase, if_neg hne, hex]
    · simp [hu, hex]

/-- A parse tree declaring the single table post under a Tables map. -/
def treeOnePost : TsNode :=
  TsNode.otherNode (TsForest.cons
    (TsNode.propertySignature (TsPropName.ident ("Tables".toList))
      (TsForest.cons
        (TsNode.typeLiteral
          (TsForest.cons
            (TsNode.propertySignature (TsPropName.ident ("post".toList)) TsForest.nil)
            TsForest.nil))
        TsForest.nil))
    TsForest.nil)

/-- An output path whose file name is SupabaseApi.ts, so the derived template
path coincides with the output path. -/
def aliasedOut : String := "/app/SupabaseApi.ts"

/-- The content of the template file that exists before the aliased run. -/
def aliasedTemplate : List Char := ("A// [TABLE_METHODS]B").toList

/-- The filesystem before the aliased run: only the template file exists. -/
def aliasedFs : FS := FS.write FS.empty aliasedOut aliasedTemplate

set_option maxRecDepth 100000 in
/-- C3 counterexample: with the output file named SupabaseApi.ts, the template
path equals the output path, a template file exists at that path when the run
starts, and the run overwrites it: its content afterwards differs from its
content before. -/
theorem c3_template_not_preserved_cex :
    templatePathOf aliasedOut = aliasedOut ∧
    aliasedFs (templatePathOf aliasedOut) = some aliasedTemplate ∧
    (generateApiClass ⟨true⟩ treeOnePost aliasedOut aliasedFs) (templatePathOf aliasedOut) ≠
      some aliasedTemplate := by
  refine ⟨by decide, by decide, by decide⟩

/-- C3 amended witness: with distinct paths the existing template survives a
full run untouched. -/
def w4Out : String := "/app/api.ts"

/-- The filesystem for the distinct-paths runs: a hand-edited template exists
at the template path. -/
def w4Fs : FS := FS.write FS.empty (templatePathOf w4Out) (("T// [TABLE_METHODS]U").toList)

set_option maxRecDepth 100000 in
/-- C3 witness: a run over a distinct output path leaves the existing template
content byte-identical. -/
theorem c3_template_preserved_when_paths_differ_witness :
    (templatePathOf w4Out ≠ w4Out) ∧
    w4Fs (templatePathOf w4Out) = some (("T// [TABLE_METHODS]U").toList) ∧
    (generateApiClass ⟨true⟩ treeOnePost w4Out w4Fs) (templatePathOf w4Out) =
      some (("T// [TABLE_METHODS]U").toList) := by
  refine ⟨by decide, by decide, ?_⟩
  exact c3_template_preserved_when_paths_differ ⟨true⟩ treeOnePost w4Out w4Fs
    (("T// [TABLE_METHODS]U").toList) (by decide) (by decide)

/-! ## C4: regeneration is byte-identical on repeated runs -/

/-- C4: with the parse tree fixed and the template unchanged between the runs
(the content at the template path after the first run is what the first run
read after ensuring the template), a second full run writes byte-identical
output file content. -/
theorem c4_regeneration_byte_identical (env1 env2 : Env) (tree : TsNode)
    (outPath : String) (fs : FS)
    (hT : (generateApiClass env1 tree outPath fs) (templatePathOf outPath) =
      (generateTemplateFile outPath fs) (templatePathOf outPath)) :
    (generateApiClass env2 tree outPath (generateApiClass env1 tree outPath fs)) outPath =
      (generateApiClass env1 tree outPath fs) outPath := by
  obtain ⟨c, hc⟩ := generateTemplateFile_some outPath fs
  have h2 : generateTemplateFile outPath (generateApiClass env1 tree outPath fs) =
      generateApiClass env1 tree outPath fs := by
    unfold generateTemplateFile
    rw [hT, hc]
  rw [generateApiClass_out, generateApiClass_out, h2, hT, hc]

set_option maxRecDepth 100000 in
/-- C4 witness: two successive runs over a one-table schema with distinct
template and output paths give the same output bytes. -/
theorem c4_regeneration_byte_identical_witness :
    ((generateApiClass ⟨true⟩ treeOnePost w4Out w4Fs) (templatePathOf w4Out) =
      (generateTemplateFile w4Out w4Fs) (templatePathOf w4Out)) ∧
    (generateApiClass ⟨true⟩ treeOnePost w4Out
        (generateApiClass ⟨true⟩ treeOnePost w4Out w4Fs)) w4Out =
      (generateApiClass ⟨true⟩ treeOnePost w4Out w4Fs) w4Out := by
  refine ⟨by decide, ?_⟩
  exact c4_regeneration_byte_identical ⟨true⟩ ⟨true⟩ treeOnePost w4Out w4Fs (by decide)

/-! ## C10: the ancestry check is local, so the pattern matches anywhere -/

/-- The identifier names of the property signatures directly in a forest. -/
def identNames : TsForest → List (List Char)
  | .nil => []
  | .cons (TsNode.propertySignature (TsPropName.ident s) _) tl => s :: identNames tl
  | .cons _ tl => identNames tl

/-- The identifier-named members of the type-literal children in a forest. -/
def collectMembers : TsForest → List (List Char)
  | .nil => []
  | .cons (TsNode.typeLiteral ms) tl => identNames ms ++ collectMembers tl
  | .cons _ tl => collectMembers tl

/-- The table names a node contributes as the Tables ancestor of the pattern:
nonempty only for a property signature named Tables, where it collects the
identifier-named members of its type-literal children. -/
def directTableNames : TsNode → List (List Char)
  | TsNode.propertySignature (TsPropName.ident s) cs =>
    if s = "Tables".toList then collectMembers cs else []
  | _ => []

/-- Membership of a node in a forest. -/
def forestContains (c : TsNode) : TsForest → Prop
  | .nil => False
  | .cons h tl => c = h ∨ forestContains c tl

/-- The subtree relation: `Occurs a n` says `a` is `n` itself or sits anywhere
below `n`, at any depth. -/
inductive Occurs (a : TsNode) : TsNode → Prop where
  | refl : Occurs a a
  | child (c n : TsNode) : Occurs a c → forestContains c (childrenOf n) → Occurs a n

theorem identNames_sub (f : TsForest) :
    ∀ s, s ∈ identNames f → ∀ (b : Bool), s ∈ preF true true b f := by
  cases f with
  | nil => intro s hs; simp [identNames] at hs
  | cons h tl =>
    intro s hs b
    simp only [preF]
    cases h with
    | propertySignature nm cs =>
      cases nm with
      | ident s2 =>
        simp only [identNames] at hs
        rcases List.mem_cons.mp hs with h1 | h1
        · subst h1
          apply List.mem_append_left
          simp [preN]
        · exact List.mem_append_right _ (identNames_sub tl s h1 b)
      | nonIdent =>
        simp only [identNames] at hs
        exact List.mem_append_right _ (identNames_sub tl s hs b)
    | typeLiteral cs =>
      simp only [identNames] at hs
      exact List.mem_append_right _ (identNames_sub tl s hs b)
    | otherNode cs =>
      simp only [identNames] at hs
      exact List.mem_append_right _ (identNames_sub tl s hs b)
termination_by structural f

theorem collectMembers_sub (f : TsForest) :
    ∀ s, s ∈ collectMembers f → ∀ (g l : Bool), s ∈ preF g l true f := by
  cases f with
  | nil => intro s hs; simp [collectMembers] at hs
  | cons h tl =>
    intro s hs g l
    simp only [preF]
    cases h with
    | typeLiteral ms =>
      simp only [collectMembers] at hs
      rcases List.mem_append.mp hs with h1 | h1
      · apply List.mem_append_left
        simp only [preN]
        exact identNames_sub ms s h1 false
      · exact List.mem_append_right _ (collectMembers_sub tl s h1 g l)
    | propertySignature nm cs =>
      simp only [collectMembers] at hs
      exact List.mem_append_right _ (collectMembers_sub tl s hs g l)
    | otherNode cs =>
      simp only [collectMembers] at hs
      exact List.mem_append_right _ (collectMembers_sub tl s hs g l)
termination_by structural f

theorem preN_contains_direct (n : TsNode) :
    ∀ s, s ∈ directTableNames n → ∀ (g l t : Bool), s ∈ preN g l t n := by
  cases n with
  | propertySignature nm cs =>
    cases nm with
    | ident s2 =>
      intro s hs g l t
      simp only [directTableNames] at hs
      by_cases hT : s2 = "Tables".toList
      · rw [if_pos hT] at hs
        simp only [preN]
        apply List.mem_append_right
        rw [decide_eq_true hT]
        exact collectMembers_sub cs s hs t false
      · rw [if_neg hT] at hs; simp at hs
    | nonIdent => intro s hs; simp [directTableNames] at hs
  | typeLiteral cs => intro s hs; simp [directTableNames] at hs
  | otherNode cs => intro s hs; simp [directTableNames] at hs

theorem mem_preF_of_contains (f : TsForest) (c : TsNode) :
    forestContains c f → ∀ s (g l t : Bool), s ∈ preN g l t c → s ∈ preF g l t f := by
  cases f with
  | nil => intro h; exact absurd h (by simp [forestContains])
  | cons h tl =>
    intro hc s g l t hs
    simp only [forestContains] at hc
    simp only [preF]
    rcases hc with h1 | h1
    · subst h1
      exact List.mem_append_left _ hs
    · exact List.mem_append_right _ (mem_preF_of_contains tl c h1 s g l t hs)
termination_by structural f

theorem occurs_direct_sub (gp T : TsNode) (hocc : Occurs gp T) :
    ∀ s, s ∈ directTableNames gp → ∀ (g l t : Bool), s ∈ preN g l t T := by
  induction hocc with
  | refl => exact preN_contains_direct gp
  | child c n hOcc hmem ih =>
    intro s hs g l t
    cases n with
    | propertySignature nm cs =>
      cases nm with
      | ident s2 =>
        simp only [preN]
        apply List.mem_append_right
        exact mem_preF_of_contains cs c (by simpa [childrenOf] using hmem) s t false
          (decide (s2 = "Tables".toList)) (ih s hs t false (decide (s2 = "Tables".toList)))
      | nonIdent =>
        simp only [preN]
        exact mem_preF_of_contains cs c (by simpa [childrenOf] using hmem) s t false false
          (ih s hs t false false)
    | typeLiteral cs =>
      simp only [preN]
      exact mem_preF_of_contains cs c (by simpa [childrenOf] using hmem) s t true false
        (ih s hs t true false)
    | otherNode cs =>
      simp only [preN]
      exact mem_preF_of_contains cs c (by simpa [childrenOf] using hmem) s t false false
        (ih s hs t false false)

/-- C10: extraction never looks above the Tables property: whenever a property
signature named Tables occurs anywhere in the parse tree, at any depth and
under any enclosing structure, every identifier-named property signature
sitting in its type-literal children is part of the extraction result. -/
theorem c10_ancestry_pattern_extraction (T gp : TsNode) (s : List Char)
    (hocc : Occurs gp T) (hs : s ∈ directTableNames gp) :
    s ∈ extractTableNames T := by
  rw [extract_eq_preorder]
  have := occurs_direct_sub gp T hocc s hs false false false
  simpa [preorderTableNames] using this

/-- The Tables property signature of the C10 witness tree, holding one
identifier-named member deep_table. -/
def c10Gp : TsNode :=
  TsNode.propertySignature (TsPropName.ident ("Tables".toList))
    (TsForest.cons
      (TsNode.typeLiteral
        (TsForest.cons
          (TsNode.propertySignature (TsPropName.ident ("deep_table".toList)) TsForest.nil)
          TsForest.nil))
      TsForest.nil)

/-- An intermediate wrapper node around the Tables property. -/
def c10Mid : TsNode := TsNode.otherNode (TsForest.cons c10Gp TsForest.nil)

/-- The C10 witness tree: the Tables pattern buried under two wrapper nodes
that are neither a Database nor a public property. -/
def c10Tree : TsNode := TsNode.otherNode (TsForest.cons c10Mid TsForest.nil)

/-- C10 witness: the deeply nested pattern instance, with no outer Database
or public wrapper, still contributes its member name to extraction. -/
theorem c10_ancestry_pattern_extraction_witness :
    Occurs c10Gp c10Tree ∧
    ("deep_table".toList ∈ directTableNames c10Gp) ∧
    ("deep_table".toList ∈ extractTableNames c10Tree) := by
  have h2 : Occurs c10Gp c10Mid :=
    Occurs.child c10Gp c10Mid Occurs.refl (Or.inl rfl)
  have h3 : Occurs c10Gp c10Tree :=
    Occurs.child c10Mid c10Tree h2 (Or.inl rfl)
  exact ⟨h3, by decide,
    c10_ancestry_pattern_extraction c10Tree c10Gp ("deep_table".toList) h3 (by decide)⟩
